import Mathlib

/-!
Shallow embedding of `blocks/log.py`: training logs with an in-memory
backend (`TrainingLog`, a `defaultdict(dict)`) and a persistent SQLite
backend (`SQLiteLog`, two tables `entries` and `status`).

Tables are modelled as association lists of rows.  A table produced by the
SQL layer never holds two rows with the same primary key (the schema
declares `PRIMARY KEY(uuid, key)` resp. `PRIMARY KEY(uuid, time, key)`);
theorems that rely on that table invariant state it as a hypothesis.
The unbounded `while True` loop of `SQLiteLog.ancestors` is indexed by
explicit fuel: `none` means the loop has not reached its `break` within
that many iterations.
-/

namespace Blocks

/-- SQLite storage classes for the `value` columns.  REAL payloads are
carried as rationals: values are only stored and returned verbatim, never
computed with.  A stored UUID (its 16 raw bytes) is a `blob`. -/
inductive Value where
  | null
  | int (i : Int)
  | real (r : Rat)
  | text (s : String)
  | blob (b : Nat)
deriving DecidableEq

/-- Rows of the `status` table: ((uuid, key), value). -/
abbrev StatusTable := List ((Value × String) × Value)

/-- Rows of the `entries` table: ((uuid, time, key), value).  The `time`
column only ever receives values that passed `_check_time`, hence `Nat`. -/
abbrev EntriesTable := List ((Value × Nat × String) × Value)

/-- `SELECT value FROM status WHERE uuid = ? AND key = ?` + `fetchone()`:
the first matching row's value, `none` when no row matches. -/
def statusFetch (st : StatusTable) (u : Value) (k : String) : Option Value :=
  (st.find? (fun r => decide (r.1 = (u, k)))).map Prod.snd

/-- `INSERT OR REPLACE INTO status VALUES (?, ?, ?)`: the primary key
forces any old row `(u, k)` out; the new row is the one later fetches
see. -/
def statusPut (st : StatusTable) (u : Value) (k : String) (v : Value) : StatusTable :=
  ((u, k), v) :: st.filter (fun r => decide (r.1 ≠ (u, k)))

/-- `DELETE FROM status WHERE uuid = ? AND key = ?`. -/
def statusErase (st : StatusTable) (u : Value) (k : String) : StatusTable :=
  st.filter (fun r => decide (r.1 ≠ (u, k)))

/-- `SELECT value FROM entries WHERE uuid = ? AND time = ? AND key = ?`
+ `fetchone()`. -/
def entriesFetch (es : EntriesTable) (u : Value) (t : Nat) (k : String) : Option Value :=
  (es.find? (fun r => decide (r.1 = (u, t, k)))).map Prod.snd

/-- `INSERT OR REPLACE INTO entries VALUES (?, ?, ?, ?)`. -/
def entriesPut (es : EntriesTable) (u : Value) (t : Nat) (k : String) (v : Value) :
    EntriesTable :=
  ((u, t, k), v) :: es.filter (fun r => decide (r.1 ≠ (u, t, k)))

/-- `DELETE FROM entries WHERE uuid = ? AND time = ? AND key = ?`. -/
def entriesErase (es : EntriesTable) (u : Value) (t : Nat) (k : String) : EntriesTable :=
  es.filter (fun r => decide (r.1 ≠ (u, t, k)))

/-- The two tables behind one SQLite connection (`CREATE TABLE IF NOT
EXISTS` has already run: the tables exist). -/
structure SQLiteDB where
  entries : EntriesTable
  status : StatusTable
deriving DecidableEq

/-- A `SQLiteLog`: its current `uuid` plus the connected database. -/
structure SQLiteLog where
  uuid : Nat
  db : SQLiteDB
deriving DecidableEq

namespace SQLiteLog

/-- `self.b_uuid`: the raw 16 bytes of the log's UUID, as bound to the
`uuid` columns. -/
def b_uuid (L : SQLiteLog) : Value := Value.blob L.uuid

/-- `SQLiteStatus.__getitem__` (raises `KeyError` on `none`). -/
def statusGet (L : SQLiteLog) (k : String) : Option Value :=
  statusFetch L.db.status L.b_uuid k

/-- `SQLiteStatus.__setitem__`. -/
def statusSet (L : SQLiteLog) (k : String) (v : Value) : SQLiteLog :=
  { L with db := { L.db with status := statusPut L.db.status L.b_uuid k v } }

/-- `_TrainingLog.__init__` on a fresh `SQLiteLog`: the connection and the
tables live in `db`; `self.status.update({...})` writes the three default
keys through `SQLiteStatus.__setitem__`, in the literal's order. -/
def create (u : Nat) (db : SQLiteDB) : SQLiteLog :=
  let b := Value.blob u
  let st := statusPut (statusPut (statusPut db.status b "iterations_done" (.int 0))
              b "epochs_done" (.int 0)) b "resumed_from" .null
  { uuid := u, db := { db with status := st } }

end SQLiteLog

/-- The `while True` loop of `SQLiteLog.ancestors`, indexed by fuel.
Each iteration fetches `resumed_from` for the chain's tail; the loop
breaks on a missing row (`parent is None`) or a NULL value
(`parent[0] is None`) and otherwise appends the fetched value, which
becomes the next tail.  `none`: the loop has not broken within `fuel`
iterations. -/
def ancestorsLoop (st : StatusTable) : Nat → List Value → Value → Option (List Value)
  | 0, _, _ => none
  | n + 1, acc, tail =>
    match statusFetch st tail "resumed_from" with
    | none => some acc
    | some Value.null => some acc
    | some v => ancestorsLoop st n (acc ++ [v]) v

/-- After the loop, `SQLiteLog.ancestors` rebuilds the list through
`UUID(bytes=a)`: every chain member must be a stored UUID (16-byte blob)
or that conversion fails instead of returning a list. -/
def allBlobs : List Value → Bool
  | [] => true
  | Value.blob _ :: rest => allBlobs rest
  | _ => false

namespace SQLiteLog

/-- `SQLiteLog.ancestors` at a given fuel.  The `_ancestors` cache in the
source is never hit — `self.b_uuid in self._ancestors` compares a
raw-bytes value against `UUID` objects and is always false — so every
call re-runs the loop on the current tables. -/
def ancestorsF (L : SQLiteLog) (fuel : Nat) : Option (List Value) :=
  match ancestorsLoop L.db.status fuel [L.b_uuid] L.b_uuid with
  | none => none
  | some ch => if allBlobs ch then some ch else none

end SQLiteLog

/-- The loop body of `SQLiteEntry.__getitem__`: walk the resolved chain
and return the first identity's stored value for `(time, key)`.
`fetchone()` is `None` exactly when no row exists, so a row holding a
stored NULL is still a hit. -/
def readChain (es : EntriesTable) (t : Nat) (k : String) : List Value → Option Value
  | [] => none
  | u :: rest =>
    match entriesFetch es u t k with
    | some v => some v
    | none => readChain es t k rest

/-- `sqlite3.OperationalError` and friends. -/
inductive SqlError where
  | operational
deriving DecidableEq

namespace SQLiteLog

/-- `SQLiteEntry.__getitem__` end to end: outer `none` when ancestry
resolution itself fails at this fuel; `some none` is the `KeyError`;
`some (some v)` the returned value. -/
def entryGetF (L : SQLiteLog) (fuel t : Nat) (k : String) : Option (Option Value) :=
  (L.ancestorsF fuel).map (fun ch => readChain L.db.entries t k ch)

/-- `SQLiteEntry.__setitem__`: upsert under this log's own uuid. -/
def entrySet (L : SQLiteLog) (t : Nat) (k : String) (v : Value) : SQLiteLog :=
  { L with db := { L.db with entries := entriesPut L.db.entries L.b_uuid t k v } }

/-- `SQLiteEntry.__delitem__`: delete under this log's own uuid. -/
def entryDel (L : SQLiteLog) (t : Nat) (k : String) : SQLiteLog :=
  { L with db := { L.db with entries := entriesErase L.db.entries L.b_uuid t k } }

/-- `SQLiteEntry.__len__`: `SELECT COUNT(*) FROM entries WHERE uuid IN
(…ancestors…) AND time = ?` — a plain row count, one row per generation
holding the key. -/
def entryLenF (L : SQLiteLog) (fuel t : Nat) : Option Nat :=
  (L.ancestorsF fuel).map (fun ch =>
    (L.db.entries.filter (fun r => decide (r.1.1 ∈ ch ∧ r.1.2.1 = t))).length)

/-- `SQLiteEntry.__iter__` first resolves `self.log.ancestors`, then
builds the query `SELECT key FROM entries WHERE uuid = IN (…) AND time
= ?` — note `uuid = IN`, a SQL syntax error — so `conn.execute` raises
`OperationalError` before yielding any key, for every store state and
time. -/
def entryIterKeysF (L : SQLiteLog) (fuel : Nat) (_t : Nat) :
    Option (Except SqlError (List String)) :=
  (L.ancestorsF fuel).map (fun _ => Except.error SqlError.operational)

/-- `SQLiteLog.__iter__`: `SELECT DISTINCT time FROM entries WHERE uuid
IN (…ancestors…) ORDER BY time ASC` — the distinct times holding a row
anywhere in the chain, ascending. -/
def logTimesF (L : SQLiteLog) (fuel : Nat) : Option (List Nat) :=
  (L.ancestorsF fuel).map (fun ch =>
    (((L.db.entries.filter (fun r => decide (r.1.1 ∈ ch))).map
      (fun r => r.1.2.1)).toFinset.sort (· ≤ ·)))

/-- `SQLiteLog.__len__`: `SELECT COUNT(DISTINCT time) …`. -/
def logLenF (L : SQLiteLog) (fuel : Nat) : Option Nat :=
  (L.ancestorsF fuel).map (fun ch =>
    (((L.db.entries.filter (fun r => decide (r.1.1 ∈ ch))).map
      (fun r => r.1.2.1)).toFinset.card))

/-- `SQLiteStatus` pairs of one identity in table order — the snapshot
`dict(self.status)` taken by `resume` (under the primary-key table
invariant each key appears once, with its stored value). -/
def statusPairs (st : StatusTable) (u : Value) : List (String × Value) :=
  (st.filter (fun r => decide (r.1.1 = u))).map (fun r => (r.1.2, r.2))

/-- `_TrainingLog.resume` on the SQLite backend: snapshot the old
identity's status rows, switch `self.uuid` to the new one, write the
snapshot under the new identity (`self.status.update(old_status)`), then
set the new identity's `resumed_from` to the old identity's bytes. -/
def resume (L : SQLiteLog) (newUuid : Nat) : SQLiteLog :=
  let old := L.b_uuid
  let snap := statusPairs L.db.status old
  let b := Value.blob newUuid
  let st1 := snap.foldl (fun st kv => statusPut st b kv.1 kv.2) L.db.status
  { uuid := newUuid, db := { L.db with status := statusPut st1 b "resumed_from" old } }

end SQLiteLog

/-- A Python argument position where a time is expected: any `Integral`
(`int`, `bool`, …) is `int i`; any other object fails the `isinstance`
check of `_check_time`. -/
inductive TimeArg where
  | int (i : Int)
  | notIntegral
deriving DecidableEq

/-- `ValueError("time must be a non-negative integer")` — the spec's
`InvalidTimeError`. -/
inductive InvalidTimeError where
  | invalidTime
deriving DecidableEq

/-- `_TrainingLog._check_time`: `isinstance(time, Integral) and time >= 0`. -/
def checkTime : TimeArg → Bool
  | .int i => decide (0 ≤ i)
  | .notIntegral => false

namespace SQLiteLog

/-- `SQLiteLog.__getitem__`: `_check_time`, then a `SQLiteEntry` view
bound to `(self, time)`; no row is read or written. -/
def getRow (L : SQLiteLog) (t : TimeArg) : Except InvalidTimeError (SQLiteLog × Nat) :=
  match t with
  | .int i => if 0 ≤ i then .ok (L, i.toNat) else .error .invalidTime
  | .notIntegral => .error .invalidTime

/-- `previous_row` = `self[self.status['iterations_done'] - 1]`, for a
stored integer `iterations_done` (outer `none`: the status key is absent
or not an integer, which would fail before `_check_time`). -/
def previousRow (L : SQLiteLog) : Option (Except InvalidTimeError (SQLiteLog × Nat)) :=
  match L.statusGet "iterations_done" with
  | some (.int i) => some (L.getRow (.int (i - 1)))
  | _ => none

end SQLiteLog

/-- An insertion-ordered CPython dict, as an association list. -/
abbrev PyDict (K V : Type) := List (K × V)

/-- `d[k]`, `none` = `KeyError`. -/
def dictFetch {K V : Type} [DecidableEq K] (d : PyDict K V) (k : K) : Option V :=
  (d.find? (fun e => decide (e.1 = k))).map Prod.snd

/-- `d[k] = v`: update in place when the key exists, else append. -/
def dictPut {K V : Type} [DecidableEq K] (d : PyDict K V) (k : K) (v : V) : PyDict K V :=
  if (d.find? (fun e => decide (e.1 = k))).isSome
  then d.map (fun e => if e.1 = k then (k, v) else e)
  else d ++ [(k, v)]

/-- `del d[k]`. -/
def dictDrop {K V : Type} [DecidableEq K] (d : PyDict K V) (k : K) : PyDict K V :=
  d.filter (fun e => decide (e.1 ≠ k))

/-- The in-memory backend: `class TrainingLog(defaultdict, _TrainingLog)`
with `default_factory = dict`; its instance dict holds `uuid` and
`status`. -/
structure TrainingLog where
  uuid : Nat
  status : PyDict String Value
  rows : PyDict Nat (PyDict String Value)
deriving DecidableEq

namespace TrainingLog

/-- `TrainingLog.__init__`: empty `defaultdict(dict)`, empty status dict,
then `_TrainingLog.__init__` seeds the uuid and the three status
defaults. -/
def create (u : Nat) : TrainingLog :=
  { uuid := u,
    status := dictPut (dictPut (dictPut [] "iterations_done" (.int 0))
                "epochs_done" (.int 0)) "resumed_from" .null,
    rows := [] }

/-- `defaultdict.__missing__`: probing `log[t]` inserts a fresh empty row
when `t` is absent (and returns the shared, mutable row object). -/
def probe (M : TrainingLog) (t : Nat) : TrainingLog :=
  if (dictFetch M.rows t).isSome then M else { M with rows := M.rows ++ [(t, [])] }

/-- The row the caller sees for time `t` (empty when absent). -/
def rowAt (M : TrainingLog) (t : Nat) : PyDict String Value :=
  (dictFetch M.rows t).getD []

/-- `TrainingLog.__getitem__`: `_check_time`, then `defaultdict` access —
the state after the probe together with the row handed back. -/
def getRow (M : TrainingLog) (t : TimeArg) :
    Except InvalidTimeError (TrainingLog × PyDict String Value) :=
  match t with
  | .int i =>
      if 0 ≤ i then .ok (M.probe i.toNat, (M.probe i.toNat).rowAt i.toNat)
      else .error .invalidTime
  | .notIntegral => .error .invalidTime

/-- `log[t][k] = v`: the probed row object is mutated in place, so the
write lands inside `rows`. -/
def write (M : TrainingLog) (t : Nat) (k : String) (v : Value) : TrainingLog :=
  let M1 := M.probe t
  { M1 with rows := dictPut M1.rows t (dictPut (M1.rowAt t) k v) }

/-- `log[t][k]`: the value the read returns (`none` = `KeyError`);
the probe's state effect is separate (`probe`). -/
def readAt (M : TrainingLog) (t : Nat) (k : String) : Option Value :=
  dictFetch (M.rowAt t) k

/-- `del log[t][k]` (for a present key): the probed row object loses the
key in place. -/
def erase (M : TrainingLog) (t : Nat) (k : String) : TrainingLog :=
  let M1 := M.probe t
  { M1 with rows := dictPut M1.rows t (dictDrop (M1.rowAt t) k) }

/-- Iterating a `TrainingLog` is plain dict iteration: the stored times
in insertion order. -/
def timesList (M : TrainingLog) : List Nat := M.rows.map Prod.fst

/-- `_TrainingLog.resume` on the in-memory backend:
`self.status.update(dict(self.status))` rewrites each pair with its
current value, then `resumed_from` is set to the old identity's bytes. -/
def resume (M : TrainingLog) (newUuid : Nat) : TrainingLog :=
  let old := Value.blob M.uuid
  let st1 := M.status.foldl (fun d kv => dictPut d kv.1 kv.2) M.status
  { M with uuid := newUuid, status := dictPut st1 "resumed_from" old }

/-- `previous_row` on the in-memory backend. -/
def previousRow (M : TrainingLog) :
    Option (Except InvalidTimeError (TrainingLog × PyDict String Value)) :=
  match dictFetch M.status "iterations_done" with
  | some (.int i) => some (M.getRow (.int (i - 1)))
  | _ => none

end TrainingLog

/-- What `TrainingLog.__reduce__` emits: the constructor is called with
no arguments, then the instance dict (`uuid`, `status`) is applied, then
each dict item is replayed through `__setitem__`. -/
structure MemSnapshot where
  uuid : Nat
  status : PyDict String Value
  items : PyDict Nat (PyDict String Value)
deriving DecidableEq

/-- `TrainingLog.__reduce__`: `(TrainingLog, (), self.__dict__, None,
iter(self.items()))`. -/
def TrainingLog.toSnapshot (M : TrainingLog) : MemSnapshot :=
  { uuid := M.uuid, status := M.status, items := M.rows }

/-- Unpickling: call `TrainingLog()` (minting a fresh uuid), apply
`__dict__.update(state)`, then `obj[time] = row` for each item through
`TrainingLog.__setitem__` (whose `_check_time` the stored times pass). -/
def MemSnapshot.toLog (p : MemSnapshot) (freshUuid : Nat) : TrainingLog :=
  let M0 := TrainingLog.create freshUuid
  let M1 := { M0 with uuid := p.uuid, status := p.status }
  p.items.foldl (fun M tr => { M with rows := dictPut M.rows tr.1 tr.2 }) M1

/-- A status table whose stored `resumed_from` links form a two-cycle:
identity `blob 0` resumed from `blob 1` and vice versa. -/
def cyclicStatus : StatusTable :=
  [((Value.blob 0, "resumed_from"), Value.blob 1),
   ((Value.blob 1, "resumed_from"), Value.blob 0)]

/-- A log whose own identity sits on that cycle. -/
def cyclicLog : SQLiteLog :=
  { uuid := 0, db := { entries := [], status := cyclicStatus } }

/-- Spec §8.6 scenario, step 1: log A on a fresh store. -/
def scenarioA : SQLiteLog := SQLiteLog.create 0 { entries := [], status := [] }

/-- `A[0]['loss'] = 1.0`. -/
def scenarioA1 : SQLiteLog := scenarioA.entrySet 0 "loss" (Value.real 1)

/-- `A.status['iterations_done'] = 1`. -/
def scenarioA2 : SQLiteLog := scenarioA1.statusSet "iterations_done" (Value.int 1)

/-- `A.resume()` minting identity B. -/
def scenarioB : SQLiteLog := scenarioA2.resume 1

/-- `B[0]['loss'] = 0.5`. -/
def scenarioB1 : SQLiteLog := scenarioB.entrySet 0 "loss" (Value.real (1 / 2))

/-! ## Library lemmas on `find?`, the table primitives and `PyDict` -/

theorem find?_filter_eq {α : Type} (p q : α → Bool) (h : ∀ a, p a = true → q a = true) :
    ∀ l : List α, (l.filter q).find? p = l.find? p := by
  intro l
  induction l with
  | nil => rfl
  | cons a l ih =>
    by_cases hq : q a = true
    · cases hp : p a <;> simp [List.filter_cons, hq, List.find?, hp, ih]
    · have hp : p a = false := by
        cases hpa : p a
        · rfl
        · exact absurd (h a hpa) hq
      simp [List.filter_cons, hq, List.find?, hp, ih]

theorem statusFetch_put_same (st : StatusTable) (u : Value) (k : String) (v : Value) :
    statusFetch (statusPut st u k v) u k = some v := by
  simp [statusFetch, statusPut, List.find?]

theorem statusFetch_put_other (st : StatusTable) (u : Value) (k : String) (v : Value)
    (u' : Value) (k' : String) (h : (u', k') ≠ (u, k)) :
    statusFetch (statusPut st u k v) u' k' = statusFetch st u' k' := by
  unfold statusFetch statusPut
  rw [List.find?]
  have h1 : (decide (((u, k), v).1 = (u', k'))) = false := by
    simp only [decide_eq_false_iff_not]
    exact fun hx => h (by simp [hx.symm])
  rw [h1]
  rw [find?_filter_eq]
  intro a ha
  simp only [decide_eq_true_eq] at ha ⊢
  rw [ha]
  exact fun hx => h hx

theorem entriesFetch_put_same (es : EntriesTable) (u : Value) (t : Nat) (k : String)
    (v : Value) : entriesFetch (entriesPut es u t k v) u t k = some v := by
  simp [entriesFetch, entriesPut, List.find?]

theorem entriesFetch_put_other (es : EntriesTable) (u : Value) (t : Nat) (k : String)
    (v : Value) (u' : Value) (t' : Nat) (k' : String) (h : (u', t', k') ≠ (u, t, k)) :
    entriesFetch (entriesPut es u t k v) u' t' k' = entriesFetch es u' t' k' := by
  unfold entriesFetch entriesPut
  rw [List.find?]
  have h1 : (decide (((u, t, k), v).1 = (u', t', k'))) = false := by
    simp only [decide_eq_false_iff_not]
    exact fun hx => h (by simp [hx.symm])
  rw [h1]
  rw [find?_filter_eq]
  intro a ha
  simp only [decide_eq_true_eq] at ha ⊢
  rw [ha]
  exact fun hx => h hx

theorem entriesFetch_erase_same (es : EntriesTable) (u : Value) (t : Nat) (k : String) :
    entriesFetch (entriesErase es u t k) u t k = none := by
  unfold entriesFetch entriesErase
  have hnone : (List.filter (fun r => decide (r.1 ≠ (u, t, k))) es).find?
      (fun r => decide (r.1 = (u, t, k))) = none := by
    rw [List.find?_eq_none]
    intro r hr
    simp only [List.mem_filter, decide_eq_true_eq] at hr
    simp only [decide_eq_true_eq]
    exact hr.2
  rw [hnone]
  rfl

theorem entriesFetch_erase_other (es : EntriesTable) (u : Value) (t : Nat) (k : String)
    (u' : Value) (t' : Nat) (k' : String) (h : (u', t', k') ≠ (u, t, k)) :
    entriesFetch (entriesErase es u t k) u' t' k' = entriesFetch es u' t' k' := by
  unfold entriesFetch entriesErase
  rw [find?_filter_eq]
  intro a ha
  simp only [decide_eq_true_eq] at ha ⊢
  rw [ha]
  exact fun hx => h hx

theorem dictFetch_mapPut_found {K V : Type} [DecidableEq K] (d : PyDict K V) (k : K)
    (v : V) (h : (d.find? (fun e => decide (e.1 = k))).isSome = true) :
    dictFetch (d.map (fun e => if e.1 = k then (k, v) else e)) k = some v := by
  induction d with
  | nil => simp at h
  | cons e d ih =>
    by_cases he : e.1 = k
    · simp [dictFetch, he]
    · have h' : (d.find? (fun e => decide (e.1 = k))).isSome = true := by
        rw [List.find?_cons_of_neg] at h
        · exact h
        · simpa using he
      simpa [dictFetch, he] using ih h'

theorem dictFetch_map_other {K V : Type} [DecidableEq K] (d : PyDict K V) (k : K) (v : V)
    (k' : K) (h : k' ≠ k) :
    dictFetch (d.map (fun e => if e.1 = k then (k, v) else e)) k' = dictFetch d k' := by
  induction d with
  | nil => rfl
  | cons e d ih =>
    rw [List.map_cons]
    by_cases he : e.1 = k
    · have h1 : ¬ (((k, v) : K × V).1 = k') := fun hx => h hx.symm
      have h2 : ¬ (e.1 = k') := by rw [he]; exact fun hx => h hx.symm
      rw [if_pos he]
      unfold dictFetch
      rw [List.find?_cons_of_neg, List.find?_cons_of_neg]
      · exact ih
      · simpa using h2
      · simpa using h1
    · rw [if_neg he]
      by_cases he' : e.1 = k'
      · unfold dictFetch
        rw [List.find?_cons_of_pos, List.find?_cons_of_pos] <;> simp [he']
      · unfold dictFetch
        rw [List.find?_cons_of_neg, List.find?_cons_of_neg]
        · exact ih
        · simpa using he'
        · simpa using he'

theorem dictFetch_put_same {K V : Type} [DecidableEq K] (d : PyDict K V) (k : K) (v : V) :
    dictFetch (dictPut d k v) k = some v := by
  unfold dictPut
  by_cases h : (d.find? (fun e => decide (e.1 = k))).isSome = true
  · rw [if_pos h]
    exact dictFetch_mapPut_found d k v h
  · rw [if_neg h]
    have hd : d.find? (fun e => decide (e.1 = k)) = none := by
      cases hF : d.find? (fun e => decide (e.1 = k))
      · rfl
      · exact absurd (by simp [hF]) h
    unfold dictFetch
    rw [List.find?_append, hd]
    simp [List.find?]

theorem dictFetch_put_other {K V : Type} [DecidableEq K] (d : PyDict K V) (k : K) (v : V)
    (k' : K) (h : k' ≠ k) :
    dictFetch (dictPut d k v) k' = dictFetch d k' := by
  unfold dictPut
  by_cases hs : (d.find? (fun e => decide (e.1 = k))).isSome = true
  · rw [if_pos hs]
    exact dictFetch_map_other d k v k' h
  · rw [if_neg hs]
    unfold dictFetch
    rw [List.find?_append]
    have hk : decide (k = k') = false := decide_eq_false (fun hx => h hx.symm)
    have h1 : List.find? (fun e => decide (e.1 = k')) [(k, v)] = none := by
      simp only [List.find?]
      rw [hk]
    rw [h1]
    cases d.find? (fun e => decide (e.1 = k')) <;> rfl

theorem dictFetch_drop_same {K V : Type} [DecidableEq K] (d : PyDict K V) (k : K) :
    dictFetch (dictDrop d k) k = none := by
  unfold dictFetch dictDrop
  have hnone : (d.filter (fun e => decide (e.1 ≠ k))).find?
      (fun e => decide (e.1 = k)) = none := by
    rw [List.find?_eq_none]
    intro e he
    simp only [List.mem_filter, decide_eq_true_eq] at he
    simp only [decide_eq_true_eq]
    exact he.2
  rw [hnone]
  rfl

/-! ## Lemmas about `readChain` -/

theorem readChain_eq_none_iff (es : EntriesTable) (t : Nat) (k : String) :
    ∀ ch : List Value, readChain es t k ch = none ↔
      ∀ u ∈ ch, entriesFetch es u t k = none := by
  intro ch
  induction ch with
  | nil => simp [readChain]
  | cons u rest ih =>
    cases hf : entriesFetch es u t k with
    | none => simp [readChain, hf, ih]
    | some v => simp [readChain, hf]

theorem readChain_eq_some_iff (es : EntriesTable) (t : Nat) (k : String) (v : Value) :
    ∀ ch : List Value, readChain es t k ch = some v ↔
      ∃ l1 u l2, ch = l1 ++ u :: l2 ∧ entriesFetch es u t k = some v ∧
        ∀ w ∈ l1, entriesFetch es w t k = none := by
  intro ch
  induction ch with
  | nil =>
    simp only [readChain]
    constructor
    · intro h; cases h
    · rintro ⟨l1, u, l2, hch, -, -⟩
      cases l1 <;> simp at hch
  | cons u rest ih =>
    cases hf : entriesFetch es u t k with
    | some w =>
      simp only [readChain, hf]
      constructor
      · intro h
        exact ⟨[], u, rest, rfl, by rw [hf, h], by simp⟩
      · rintro ⟨l1, x, l2, hch, hx, hnone⟩
        cases l1 with
        | nil =>
          simp only [List.nil_append, List.cons.injEq] at hch
          rw [← hch.1] at hx
          rw [hf] at hx
          exact hx
        | cons y l1 =>
          simp only [List.cons_append, List.cons.injEq] at hch
          have hy := hnone y (by simp)
          rw [← hch.1] at hy
          rw [hf] at hy
          cases hy
    | none =>
      simp only [readChain, hf, ih]
      constructor
      · rintro ⟨l1, x, l2, rfl, hx, hn⟩
        refine ⟨u :: l1, x, l2, rfl, hx, ?_⟩
        intro w hw
        rcases List.mem_cons.mp hw with rfl | hw
        · exact hf
        · exact hn w hw
      · rintro ⟨l1, x, l2, hch, hx, hn⟩
        cases l1 with
        | nil =>
          simp only [List.nil_append, List.cons.injEq] at hch
          rw [← hch.1] at hx
          rw [hf] at hx
          cases hx
        | cons y l1 =>
          simp only [List.cons_append, List.cons.injEq] at hch
          exact ⟨l1, x, l2, hch.2, hx, fun w hw => hn w (by simp [hw])⟩

/-! ## Lemmas about the ancestry loop -/

theorem ancestorsLoop_mono (st : StatusTable) :
    ∀ (f g : Nat) (acc : List Value) (tail : Value) (out : List Value),
      ancestorsLoop st f acc tail = some out → f ≤ g →
      ancestorsLoop st g acc tail = some out := by
  intro f
  induction f with
  | zero => intro g acc tail out h _; cases h
  | succ n ih =>
    intro g acc tail out h hfg
    obtain ⟨g', rfl⟩ : ∃ g', g = g' + 1 := ⟨g - 1, by omega⟩
    rw [ancestorsLoop] at h ⊢
    cases hfetch : statusFetch st tail "resumed_from" with
    | none => rw [hfetch] at h; exact h
    | some v =>
      rw [hfetch] at h
      cases v with
      | null => exact h
      | int i => exact ih g' _ _ _ h (by omega)
      | real r => exact ih g' _ _ _ h (by omega)
      | text s => exact ih g' _ _ _ h (by omega)
      | blob b => exact ih g' _ _ _ h (by omega)

theorem ancestorsLoop_acc_append (st : StatusTable) :
    ∀ (f : Nat) (acc : List Value) (tail : Value) (out : List Value),
      ancestorsLoop st f acc tail = some out → ∃ s, out = acc ++ s := by
  intro f
  induction f with
  | zero => intro acc tail out h; cases h
  | succ n ih =>
    intro acc tail out h
    rw [ancestorsLoop] at h
    cases hfetch : statusFetch st tail "resumed_from" with
    | none =>
      rw [hfetch] at h
      cases h
      exact ⟨[], by simp⟩
    | some v =>
      rw [hfetch] at h
      cases v with
      | null => cases h; exact ⟨[], by simp⟩
      | int i => obtain ⟨s, hs⟩ := ih _ _ _ h; exact ⟨Value.int i :: s, by simp [hs]⟩
      | real r => obtain ⟨s, hs⟩ := ih _ _ _ h; exact ⟨Value.real r :: s, by simp [hs]⟩
      | text s' => obtain ⟨s, hs⟩ := ih _ _ _ h; exact ⟨Value.text s' :: s, by simp [hs]⟩
      | blob b => obtain ⟨s, hs⟩ := ih _ _ _ h; exact ⟨Value.blob b :: s, by simp [hs]⟩

theorem ancestorsLoop_shift (st : StatusTable) :
    ∀ (f : Nat) (pre acc : List Value) (tail : Value) (out : List Value),
      ancestorsLoop st f acc tail = some out →
      ancestorsLoop st f (pre ++ acc) tail = some (pre ++ out) := by
  intro f
  induction f with
  | zero => intro pre acc tail out h; cases h
  | succ n ih =>
    intro pre acc tail out h
    rw [ancestorsLoop] at h ⊢
    cases hfetch : statusFetch st tail "resumed_from" with
    | none => rw [hfetch] at h; cases h; rfl
    | some v =>
      rw [hfetch] at h
      cases v with
      | null => cases h; rfl
      | int i =>
        have h2 := ih pre (acc ++ [Value.int i]) (Value.int i) out h
        rw [← List.append_assoc] at h2
        exact h2
      | real r =>
        have h2 := ih pre (acc ++ [Value.real r]) (Value.real r) out h
        rw [← List.append_assoc] at h2
        exact h2
      | text s' =>
        have h2 := ih pre (acc ++ [Value.text s']) (Value.text s') out h
        rw [← List.append_assoc] at h2
        exact h2
      | blob b =>
        have h2 := ih pre (acc ++ [Value.blob b]) (Value.blob b) out h
        rw [← List.append_assoc] at h2
        exact h2

theorem ancestorsLoop_congr (st st' : StatusTable) :
    ∀ (f : Nat) (acc : List Value) (tail : Value) (out : List Value),
      ancestorsLoop st f acc tail = some out →
      (∀ u ∈ out, statusFetch st' u "resumed_from" = statusFetch st u "resumed_from") →
      tail ∈ out →
      ancestorsLoop st' f acc tail = some out := by
  intro f
  induction f with
  | zero => intro acc tail out h _ _; cases h
  | succ n ih =>
    intro acc tail out h hsame htail
    rw [ancestorsLoop] at h ⊢
    rw [hsame tail htail]
    cases hfetch : statusFetch st tail "resumed_from" with
    | none => rw [hfetch] at h; exact h
    | some v =>
      rw [hfetch] at h
      cases v with
      | null => exact h
      | int i =>
        obtain ⟨s, hs⟩ := ancestorsLoop_acc_append st n _ _ _ h
        exact ih _ _ _ h hsame (by rw [hs]; simp)
      | real r =>
        obtain ⟨s, hs⟩ := ancestorsLoop_acc_append st n _ _ _ h
        exact ih _ _ _ h hsame (by rw [hs]; simp)
      | text s' =>
        obtain ⟨s, hs⟩ := ancestorsLoop_acc_append st n _ _ _ h
        exact ih _ _ _ h hsame (by rw [hs]; simp)
      | blob b =>
        obtain ⟨s, hs⟩ := ancestorsLoop_acc_append st n _ _ _ h
        exact ih _ _ _ h hsame (by rw [hs]; simp)

/-! ## C1: a cyclic `resumed_from` chain -/

theorem cyclicStatus_loop_none :
    ∀ (f : Nat) (acc : List Value) (tail : Value),
      tail = Value.blob 0 ∨ tail = Value.blob 1 →
      ancestorsLoop cyclicStatus f acc tail = none := by
  intro f
  induction f with
  | zero => intro acc tail _; rfl
  | succ n ih =>
    rintro acc tail (rfl | rfl)
    · have hfetch : statusFetch cyclicStatus (Value.blob 0) "resumed_from"
          = some (Value.blob 1) := by decide
      rw [ancestorsLoop, hfetch]
      exact ih _ _ (Or.inr rfl)
    · have hfetch : statusFetch cyclicStatus (Value.blob 1) "resumed_from"
          = some (Value.blob 0) := by decide
      rw [ancestorsLoop, hfetch]
      exact ih _ _ (Or.inl rfl)

/-- C1: the claim says a cyclic stored `resumed_from` chain makes
resolution abort with a `CorruptAncestryError`.  The code's `ancestors`
loop has no visited-set and raises nothing: on the two-cycle
`cyclicStatus` it never reaches its `break` — no amount of fuel makes
the loop of `SQLiteLog.ancestors` terminate, so resolution loops
forever instead of aborting. -/
theorem C1_cycle_loops_forever :
    (∀ fuel : Nat,
        ancestorsLoop cyclicStatus fuel [Value.blob 0] (Value.blob 0) = none)
    ∧ ∀ fuel : Nat, cyclicLog.ancestorsF fuel = none := by
  constructor
  · intro fuel
    exact cyclicStatus_loop_none fuel _ _ (Or.inl rfl)
  · intro fuel
    have h : ancestorsLoop cyclicStatus fuel [Value.blob 0] (Value.blob 0) = none :=
      cyclicStatus_loop_none fuel _ _ (Or.inl rfl)
    simp [SQLiteLog.ancestorsF, SQLiteLog.b_uuid, cyclicLog, h]

/-! ## C7: time validation -/

/-- C7: `log[t]` raises `InvalidTimeError` exactly when `t` is not a
non-negative integer, on both backends; and `previous_row` raises it
whenever `status` holds an integer `iterations_done` with
`iterations_done - 1` negative, on both backends. -/
theorem C7_invalid_time :
    (∀ (L : SQLiteLog) (t : TimeArg),
        L.getRow t = Except.error InvalidTimeError.invalidTime ↔
          ¬ ∃ i : Int, t = TimeArg.int i ∧ 0 ≤ i)
    ∧ (∀ (M : TrainingLog) (t : TimeArg),
        M.getRow t = Except.error InvalidTimeError.invalidTime ↔
          ¬ ∃ i : Int, t = TimeArg.int i ∧ 0 ≤ i)
    ∧ (∀ (L : SQLiteLog) (i : Int),
        L.statusGet "iterations_done" = some (Value.int i) → i - 1 < 0 →
        L.previousRow = some (Except.error InvalidTimeError.invalidTime))
    ∧ (∀ (M : TrainingLog) (i : Int),
        dictFetch M.status "iterations_done" = some (Value.int i) → i - 1 < 0 →
        M.previousRow = some (Except.error InvalidTimeError.invalidTime)) := by
  refine ⟨?_, ?_, ?_, ?_⟩
  · intro L t
    cases t with
    | int i =>
      by_cases h : 0 ≤ i
      · simp [SQLiteLog.getRow, h]
      · simp [SQLiteLog.getRow, h]
    | notIntegral => simp [SQLiteLog.getRow]
  · intro M t
    cases t with
    | int i =>
      by_cases h : 0 ≤ i
      · simp [TrainingLog.getRow, h]
      · simp [TrainingLog.getRow, h]
    | notIntegral => simp [TrainingLog.getRow]
  · intro L i hstat hneg
    have hlt : ¬ (0 ≤ i - 1) := by omega
    simp only [SQLiteLog.previousRow, hstat]
    simp [SQLiteLog.getRow, hlt]
  · intro M i hstat hneg
    have hlt : ¬ (0 ≤ i - 1) := by omega
    simp only [TrainingLog.previousRow, hstat]
    simp [TrainingLog.getRow, hlt]

/-- Witness for C7 at a concrete log: a fresh SQLite log has
`iterations_done = 0`, and `previous_row` then fails with the time
error. -/
theorem C7_invalid_time_witness :
    (SQLiteLog.create 0 ⟨[], []⟩).statusGet "iterations_done" = some (Value.int 0)
    ∧ (0 : Int) - 1 < 0
    ∧ (SQLiteLog.create 0 ⟨[], []⟩).previousRow
        = some (Except.error InvalidTimeError.invalidTime) :=
  ⟨by decide, by decide, C7_invalid_time.2.2.1 _ 0 (by decide) (by decide)⟩

/-! ## Structure of a resolved ancestry chain -/

theorem ancestorsF_eq_some (L : SQLiteLog) (f : Nat) (ch : List Value)
    (h : L.ancestorsF f = some ch) :
    ancestorsLoop L.db.status f [L.b_uuid] L.b_uuid = some ch ∧ allBlobs ch = true := by
  unfold SQLiteLog.ancestorsF at h
  cases hl : ancestorsLoop L.db.status f [L.b_uuid] L.b_uuid with
  | none => rw [hl] at h; cases h
  | some ch0 =>
    rw [hl] at h
    by_cases hb : allBlobs ch0 = true
    · simp only [hb, if_true] at h
      cases h
      exact ⟨rfl, hb⟩
    · simp only [hb, if_false] at h
      simp at h

theorem ancestorsF_head (L : SQLiteLog) (f : Nat) (ch : List Value)
    (h : L.ancestorsF f = some ch) : ∃ s, ch = L.b_uuid :: s := by
  obtain ⟨hl, -⟩ := ancestorsF_eq_some L f ch h
  obtain ⟨s, hs⟩ := ancestorsLoop_acc_append _ _ _ _ _ hl
  exact ⟨s, by simpa using hs⟩

/-! ## C6: write-then-read round trip on one identity -/

/-- C6: for both backends, writing `v` at `(t, k)` and reading `(t, k)`
back on the same identity (no intervening resume) returns exactly `v`.
On the SQLite backend the hypothesis is that ancestry resolution
terminates at the given fuel (a write never changes the `status` table,
so the chain is unchanged and its head is the log's own identity, which
holds the freshly upserted row). -/
theorem C6_write_then_read (t : Nat) (k : String) (v : Value) :
    (∀ (L : SQLiteLog) (fuel : Nat) (ch : List Value),
        L.ancestorsF fuel = some ch →
        (L.entrySet t k v).entryGetF fuel t k = some (some v))
    ∧ ∀ M : TrainingLog, (M.write t k v).readAt t k = some v := by
  constructor
  · intro L fuel ch h
    have hset : (L.entrySet t k v).ancestorsF fuel = L.ancestorsF fuel := rfl
    obtain ⟨s, hs⟩ := ancestorsF_head L fuel ch h
    unfold SQLiteLog.entryGetF
    rw [hset, h, hs]
    have hfetch : entriesFetch (L.entrySet t k v).db.entries L.b_uuid t k = some v :=
      entriesFetch_put_same _ _ _ _ _
    simp only [Option.map_some', Option.some.injEq]
    rw [readChain, hfetch]
  · intro M
    simp only [TrainingLog.readAt, TrainingLog.write, TrainingLog.rowAt]
    rw [dictFetch_put_same]
    simp only [Option.getD_some]
    exact dictFetch_put_same _ _ _

/-- Witness for C6 on a fresh SQLite log. -/
theorem C6_write_then_read_witness :
    (SQLiteLog.create 0 ⟨[], []⟩).ancestorsF 3 = some [Value.blob 0]
    ∧ ((SQLiteLog.create 0 ⟨[], []⟩).entrySet 0 "loss" (Value.int 5)).entryGetF 3 0 "loss"
        = some (some (Value.int 5)) :=
  ⟨by decide, (C6_write_then_read 0 "loss" (Value.int 5)).1 _ 3 [Value.blob 0] (by decide)⟩

/-! ## C3: writes and deletes never touch an ancestor's rows -/

/-- C3: `SQLiteEntry.__setitem__`/`__delitem__` only ever change rows
keyed by the log's own current identity — any row of any other identity
fetches the same before and after — and in the concrete spec scenario
(A writes `loss = 1.0`, resumes to B, B writes `loss = 0.5`) identity
A's stored row still holds `1.0` while a read through B returns `0.5`. -/
theorem C3_writes_never_touch_ancestors :
    (∀ (L : SQLiteLog) (t : Nat) (k : String) (v : Value) (u' : Value) (t' : Nat)
        (k' : String), u' ≠ L.b_uuid →
        entriesFetch (L.entrySet t k v).db.entries u' t' k' =
          entriesFetch L.db.entries u' t' k')
    ∧ (∀ (L : SQLiteLog) (t : Nat) (k : String) (u' : Value) (t' : Nat) (k' : String),
        u' ≠ L.b_uuid →
        entriesFetch (L.entryDel t k).db.entries u' t' k' =
          entriesFetch L.db.entries u' t' k')
    ∧ entriesFetch scenarioB1.db.entries (Value.blob 0) 0 "loss" = some (Value.real 1)
    ∧ scenarioB1.entryGetF 4 0 "loss" = some (some (Value.real (1 / 2)))
    ∧ ({ uuid := 0, db := scenarioB1.db } : SQLiteLog).entryGetF 4 0 "loss"
        = some (some (Value.real 1)) := by
  refine ⟨?_, ?_, by rfl, by rfl, by rfl⟩
  · intro L t k v u' t' k' hu
    exact entriesFetch_put_other _ _ _ _ _ _ _ _ (fun hx => hu (congrArg Prod.fst hx))
  · intro L t k u' t' k' hu
    exact entriesFetch_erase_other _ _ _ _ _ _ _ (fun hx => hu (congrArg Prod.fst hx))

/-- Witness for C3 at a concrete foreign identity. -/
theorem C3_writes_never_touch_ancestors_witness :
    (Value.blob 7 ≠ scenarioA.b_uuid)
    ∧ entriesFetch (scenarioA.entrySet 0 "loss" (Value.real 1)).db.entries
        (Value.blob 7) 0 "loss"
      = entriesFetch scenarioA.db.entries (Value.blob 7) 0 "loss" :=
  ⟨by decide, C3_writes_never_touch_ancestors.1 scenarioA 0 "loss" (Value.real 1)
    (Value.blob 7) 0 "loss" (by decide)⟩

/-! ## C9: delete removes only the descendant's own row -/

/-- C9: a row-view delete removes the key only from the log's own
identity's rows; a subsequent read raises `KeyError` exactly when no
identity in the (unchanged) ancestry chain still holds the key; on the
resumed scenario log, deleting B's override surfaces ancestor A's value
again; and on the in-memory backend a deleted key reads as `KeyError`. -/
theorem C9_delete_scoped_to_own_identity :
    (∀ (L : SQLiteLog) (t : Nat) (k : String),
        entriesFetch (L.entryDel t k).db.entries L.b_uuid t k = none)
    ∧ (∀ (L : SQLiteLog) (fuel t : Nat) (k : String) (ch : List Value),
        (L.entryDel t k).ancestorsF fuel = some ch →
        (∀ u ∈ ch, u ≠ L.b_uuid → entriesFetch L.db.entries u t k = none) →
        (L.entryDel t k).entryGetF fuel t k = some none)
    ∧ (scenarioB1.entryDel 0 "loss").entryGetF 4 0 "loss" = some (some (Value.real 1))
    ∧ ∀ (M : TrainingLog) (t : Nat) (k : String),
        (M.erase t k).readAt t k = none := by
  refine ⟨?_, ?_, by rfl, ?_⟩
  · intro L t k
    exact entriesFetch_erase_same _ _ _ _
  · intro L fuel t k ch h hch
    unfold SQLiteLog.entryGetF
    rw [h]
    simp only [Option.map_some', Option.some.injEq]
    rw [readChain_eq_none_iff]
    intro u hu
    by_cases hub : u = L.b_uuid
    · rw [hub]
      exact entriesFetch_erase_same _ _ _ _
    · have hfr := entriesFetch_erase_other L.db.entries L.b_uuid t k u t k
        (fun hx => hub (congrArg Prod.fst hx))
      rw [show (L.entryDel t k).db.entries = entriesErase L.db.entries L.b_uuid t k from rfl,
        hfr]
      exact hch u hu hub
  · intro M t k
    simp only [TrainingLog.readAt, TrainingLog.erase, TrainingLog.rowAt]
    rw [dictFetch_put_same]
    simp only [Option.getD_some]
    exact dictFetch_drop_same _ _

/-- Witness for C9: after deleting the only row, the read is a
`KeyError`. -/
theorem C9_delete_scoped_to_own_identity_witness :
    ((scenarioA1.entryDel 0 "loss").ancestorsF 3 = some [Value.blob 0])
    ∧ (∀ u ∈ [Value.blob 0], u ≠ scenarioA1.b_uuid →
        entriesFetch scenarioA1.db.entries u 0 "loss" = none)
    ∧ (scenarioA1.entryDel 0 "loss").entryGetF 3 0 "loss" = some none :=
  ⟨by decide, by decide, C9_delete_scoped_to_own_identity.2.1 scenarioA1 3 0 "loss"
    [Value.blob 0] (by decide) (by decide)⟩

/-! ## C4: row-view length and iteration -/

/-- C4: the claim says `len(log[t])` counts each distinct key once
across the chain and iteration enumerates those keys without raising.
The code disagrees twice: `__len__` runs `COUNT(*)`, so the scenario's
`loss` key — present under both generations — counts as 2, and
`__iter__` interpolates the malformed SQL `uuid = IN (…)`, so every
row-view iteration raises `OperationalError` (whenever ancestry
resolution itself terminates). -/
theorem C4_len_and_iter_defects :
    scenarioB1.entryLenF 4 0 = some 2
    ∧ scenarioB1.entryIterKeysF 4 0 = some (Except.error SqlError.operational)
    ∧ ∀ (L : SQLiteLog) (fuel t : Nat) (ch : List Value),
        L.ancestorsF fuel = some ch →
        L.entryIterKeysF fuel t = some (Except.error SqlError.operational) := by
  refine ⟨by rfl, by rfl, ?_⟩
  intro L fuel t ch h
  unfold SQLiteLog.entryIterKeysF
  rw [h]
  rfl

/-- Witness for C4: even on a fresh empty log, iterating the row view
raises. -/
theorem C4_len_and_iter_defects_witness :
    (SQLiteLog.create 0 ⟨[], []⟩).ancestorsF 3 = some [Value.blob 0]
    ∧ (SQLiteLog.create 0 ⟨[], []⟩).entryIterKeysF 3 0
        = some (Except.error SqlError.operational) :=
  ⟨by rfl, C4_len_and_iter_defects.2.2 _ 3 0 [Value.blob 0] (by rfl)⟩

/-! ## C5: top-level iteration -/

/-- C5 counterexample: on the in-memory backend, merely probing
`log[1]` on a fresh log makes time 1 appear in iteration even though
its row is empty, and writing at times 5 then 2 iterates `[5, 2]` —
dict insertion order, not ascending.  Both contradict the claim as
stated for the in-memory backend. -/
theorem C5_cex_inmemory_iteration :
    (((TrainingLog.create 5).probe 1).timesList = [1]
      ∧ ((TrainingLog.create 5).probe 1).rowAt 1 = [])
    ∧ (((TrainingLog.create 5).write 5 "a" (Value.int 1)).write 2 "b"
        (Value.int 2)).timesList = [5, 2] :=
  ⟨⟨by rfl, by rfl⟩, by rfl⟩

/-- C5 amended: on the persistent backend the claim holds — iteration
yields exactly the distinct times holding a row anywhere in the
ancestry chain, ascending and without duplicates, and `log[t]` is a
pure view (it returns the log unchanged, so probing cannot add a
time).  On the in-memory backend, probing an absent time appends an
empty row — the time then shows up in iteration with no key written —
and iteration is dict insertion order. -/
theorem C5_iteration_amended :
    (∀ (L : SQLiteLog) (fuel : Nat) (ch : List Value), L.ancestorsF fuel = some ch →
        ∃ l, L.logTimesF fuel = some l ∧ l.Sorted (· ≤ ·) ∧ l.Nodup ∧
          ∀ t : Nat, t ∈ l ↔ ∃ r, r ∈ L.db.entries ∧ r.1.1 ∈ ch ∧ r.1.2.1 = t)
    ∧ (∀ (L : SQLiteLog) (i : Int), 0 ≤ i → L.getRow (.int i) = .ok (L, i.toNat))
    ∧ (∀ (M : TrainingLog) (t : Nat), dictFetch M.rows t = none →
        (M.probe t).timesList = M.timesList ++ [t] ∧ (M.probe t).rowAt t = []) := by
  refine ⟨?_, ?_, ?_⟩
  · intro L fuel ch h
    refine ⟨_, by rw [SQLiteLog.logTimesF, h]; rfl, Finset.sort_sorted _ _,
      Finset.sort_nodup _ _, ?_⟩
    intro t
    simp only [Finset.mem_sort, List.mem_toFinset, List.mem_map, List.mem_filter,
      decide_eq_true_eq]
    constructor
    · rintro ⟨r, ⟨hr, hrch⟩, rfl⟩
      exact ⟨r, hr, hrch, rfl⟩
    · rintro ⟨r, hr, hrch, rfl⟩
      exact ⟨r, ⟨hr, hrch⟩, rfl⟩
  · intro L i hi
    simp [SQLiteLog.getRow, hi]
  · intro M t h
    have hfind : M.rows.find? (fun e => decide (e.1 = t)) = none := by
      cases hF : M.rows.find? (fun e => decide (e.1 = t))
      · rfl
      · unfold dictFetch at h
        rw [hF] at h
        cases h
    constructor
    · simp [TrainingLog.probe, h, TrainingLog.timesList]
    · simp only [TrainingLog.probe, h, Option.isSome_none, Bool.false_eq_true, if_false]
      simp only [TrainingLog.rowAt, dictFetch, List.find?_append, hfind]
      simp [List.find?]

/-- Witness for the amended C5 at a fresh in-memory log. -/
theorem C5_iteration_amended_witness :
    dictFetch (TrainingLog.create 5).rows 1 = none
    ∧ ((TrainingLog.create 5).probe 1).timesList
        = (TrainingLog.create 5).timesList ++ [1] :=
  ⟨by rfl, (C5_iteration_amended.2.2 (TrainingLog.create 5) 1 (by rfl)).1⟩

/-! ## Status writes under a different identity leave fetches alone -/

theorem statusFetch_foldPut_other (b : Value) :
    ∀ (snap : List (String × Value)) (st : StatusTable) (u : Value) (k : String),
      u ≠ b →
      statusFetch (snap.foldl (fun st kv => statusPut st b kv.1 kv.2) st) u k
        = statusFetch st u k := by
  intro snap
  induction snap with
  | nil => intro st u k _; rfl
  | cons kv snap ih =>
    intro st u k hu
    rw [List.foldl_cons, ih _ u k hu]
    exact statusFetch_put_other st b kv.1 kv.2 u k (fun hx => hu (congrArg Prod.fst hx))

/-! ## C2: ancestry read-through -/

/-- C2: with the resolved chain `ch` (self first, oldest last), a
row-view read returns the first identity in `ch` holding a row for
`(t, k)` and is a `KeyError` exactly when no identity in `ch` holds
one; and a key written before `resume()` (to a fresh identity) and not
overwritten afterwards reads back its pre-resumption value through the
chain. -/
theorem C2_read_through_chain (L : SQLiteLog) (fuel : Nat) (ch : List Value)
    (h : L.ancestorsF fuel = some ch) (t : Nat) (k : String) :
    (L.entryGetF fuel t k = some none ↔
        ∀ u ∈ ch, entriesFetch L.db.entries u t k = none)
    ∧ (∀ v : Value, L.entryGetF fuel t k = some (some v) ↔
        ∃ l1 u l2, ch = l1 ++ u :: l2 ∧ entriesFetch L.db.entries u t k = some v ∧
          ∀ w ∈ l1, entriesFetch L.db.entries w t k = none)
    ∧ (∀ (v : Value) (newUuid : Nat),
        Value.blob newUuid ∉ ch →
        entriesFetch L.db.entries (Value.blob newUuid) t k = none →
        ((L.entrySet t k v).resume newUuid).entryGetF (fuel + 1) t k
          = some (some v)) := by
  obtain ⟨hloop, hblobs⟩ := ancestorsF_eq_some L fuel ch h
  obtain ⟨s, hs⟩ := ancestorsLoop_acc_append _ _ _ _ _ hloop
  refine ⟨?_, ?_, ?_⟩
  · rw [SQLiteLog.entryGetF, h]
    simp only [Option.map_some', Option.some.injEq]
    exact readChain_eq_none_iff _ _ _ _
  · intro v
    rw [SQLiteLog.entryGetF, h]
    simp only [Option.map_some', Option.some.injEq]
    exact readChain_eq_some_iff _ _ _ _ _
  · intro v newUuid hfresh hnorow
    have hmemb : L.b_uuid ∈ ch := by rw [hs]; simp
    have hneq : Value.blob newUuid ≠ L.b_uuid := fun hx => hfresh (hx ▸ hmemb)
    have hst2 : ((L.entrySet t k v).resume newUuid).db.status
        = statusPut ((SQLiteLog.statusPairs L.db.status L.b_uuid).foldl
            (fun st kv => statusPut st (Value.blob newUuid) kv.1 kv.2) L.db.status)
          (Value.blob newUuid) "resumed_from" L.b_uuid := rfl
    have hstab : ∀ u ∈ ch,
        statusFetch ((L.entrySet t k v).resume newUuid).db.status u "resumed_from"
          = statusFetch L.db.status u "resumed_from" := by
      intro u hu
      have hune : u ≠ Value.blob newUuid := fun hx => hfresh (hx ▸ hu)
      rw [hst2]
      rw [statusFetch_put_other _ _ _ _ u "resumed_from"
        (fun hx => hune (congrArg Prod.fst hx))]
      exact statusFetch_foldPut_other _ _ _ u "resumed_from" hune
    have hcongr := ancestorsLoop_congr L.db.status
      ((L.entrySet t k v).resume newUuid).db.status fuel [L.b_uuid] L.b_uuid ch
      hloop hstab hmemb
    have hone : statusFetch ((L.entrySet t k v).resume newUuid).db.status
        (Value.blob newUuid) "resumed_from" = some L.b_uuid := by
      rw [hst2]
      exact statusFetch_put_same _ _ _ _
    have h1 : ancestorsLoop ((L.entrySet t k v).resume newUuid).db.status (fuel + 1)
        [Value.blob newUuid] (Value.blob newUuid) = some (Value.blob newUuid :: ch) := by
      rw [ancestorsLoop, hone]
      show ancestorsLoop ((L.entrySet t k v).resume newUuid).db.status fuel
          ([Value.blob newUuid] ++ [L.b_uuid]) L.b_uuid = some (Value.blob newUuid :: ch)
      have hshift := ancestorsLoop_shift _ fuel [Value.blob newUuid] [L.b_uuid]
        L.b_uuid ch hcongr
      simpa using hshift
    have hall : allBlobs (Value.blob newUuid :: ch) = true := hblobs
    have hanc : ((L.entrySet t k v).resume newUuid).ancestorsF (fuel + 1)
        = some (Value.blob newUuid :: ch) := by
      rw [SQLiteLog.ancestorsF]
      rw [show ((L.entrySet t k v).resume newUuid).b_uuid = Value.blob newUuid from rfl]
      rw [h1]
      show (if allBlobs (Value.blob newUuid :: ch) = true
          then some (Value.blob newUuid :: ch) else none)
        = some (Value.blob newUuid :: ch)
      rw [if_pos hall]
    have hrows : ((L.entrySet t k v).resume newUuid).db.entries
        = entriesPut L.db.entries L.b_uuid t k v := rfl
    have hfetch_new : entriesFetch ((L.entrySet t k v).resume newUuid).db.entries
        (Value.blob newUuid) t k = none := by
      rw [hrows]
      rw [entriesFetch_put_other L.db.entries L.b_uuid t k v (Value.blob newUuid) t k
        (fun hx => hneq (congrArg Prod.fst hx))]
      exact hnorow
    have hfetch_old : entriesFetch ((L.entrySet t k v).resume newUuid).db.entries
        L.b_uuid t k = some v := by
      rw [hrows]
      exact entriesFetch_put_same _ _ _ _ _
    rw [SQLiteLog.entryGetF, hanc]
    simp only [Option.map_some', Option.some.injEq]
    rw [readChain, hfetch_new]
    show readChain ((L.entrySet t k v).resume newUuid).db.entries t k ch = some v
    rw [hs, List.singleton_append, readChain, hfetch_old]

/-- Witness for C2 on the resumed scenario log: its chain is
`[B, A]` and the `KeyError` characterisation holds at an unwritten
key. -/
theorem C2_read_through_chain_witness :
    (scenarioB.ancestorsF 4 = some [Value.blob 1, Value.blob 0])
    ∧ (scenarioB.entryGetF 4 0 "nope" = some none ↔
        ∀ u ∈ [Value.blob 1, Value.blob 0],
          entriesFetch scenarioB.db.entries u 0 "nope" = none) :=
  ⟨by rfl, (C2_read_through_chain scenarioB 4 [Value.blob 1, Value.blob 0]
    (by rfl) 0 "nope").1⟩

/-! ## Replaying a status snapshot under a new identity -/

theorem statusFetch_foldPut_keyAbsent (b : Value) :
    ∀ (snap : List (String × Value)) (st : StatusTable) (k : String),
      k ∉ snap.map Prod.fst →
      statusFetch (snap.foldl (fun st kv => statusPut st b kv.1 kv.2) st) b k
        = statusFetch st b k := by
  intro snap
  induction snap with
  | nil => intro st k _; rfl
  | cons kv snap ih =>
    intro st k hk
    rw [List.map_cons] at hk
    have h1 : k ≠ kv.1 := fun hx => hk (by simp [hx])
    have h2 : k ∉ snap.map Prod.fst := fun hx => hk (by simp [hx])
    rw [List.foldl_cons, ih _ k h2]
    exact statusFetch_put_other st b kv.1 kv.2 b k (fun hx => h1 (congrArg Prod.snd hx))

theorem statusFetch_foldPut_mem (b : Value) :
    ∀ (snap : List (String × Value)) (st : StatusTable) (k : String) (v : Value),
      (k, v) ∈ snap → (snap.map Prod.fst).Nodup →
      statusFetch (snap.foldl (fun st kv => statusPut st b kv.1 kv.2) st) b k
        = some v := by
  intro snap
  induction snap with
  | nil => intro st k v hmem _; cases hmem
  | cons kv snap ih =>
    intro st k v hmem hnd
    obtain ⟨k0, v0⟩ := kv
    rw [List.map_cons, List.nodup_cons] at hnd
    rw [List.foldl_cons]
    rcases List.mem_cons.mp hmem with heq | hmem2
    · obtain ⟨rfl, rfl⟩ : k = k0 ∧ v = v0 := by simpa using heq
      rw [statusFetch_foldPut_keyAbsent b snap _ _ hnd.1]
      exact statusFetch_put_same st b _ _
    · exact ih _ k v hmem2 hnd.2

theorem statusPairs_of_fetch (st : StatusTable) (b : Value) (k : String) (v : Value)
    (h : statusFetch st b k = some v) : (k, v) ∈ SQLiteLog.statusPairs st b := by
  unfold statusFetch at h
  cases hF : st.find? (fun r => decide (r.1 = (b, k))) with
  | none => rw [hF] at h; cases h
  | some r =>
    rw [hF] at h
    have hr1 : r.1 = (b, k) := by simpa using List.find?_some hF
    have hmem : r ∈ st := List.mem_of_find?_eq_some hF
    have hv : r.2 = v := by simpa using h
    unfold SQLiteLog.statusPairs
    rw [List.mem_map]
    refine ⟨r, ?_, ?_⟩
    · rw [List.mem_filter]
      exact ⟨hmem, by simp [hr1]⟩
    · simp [hr1, hv]

theorem dictFetch_foldPut_keyAbsent {K V : Type} [DecidableEq K] :
    ∀ (pairs d : PyDict K V) (k : K),
      k ∉ pairs.map Prod.fst →
      dictFetch (pairs.foldl (fun d kv => dictPut d kv.1 kv.2) d) k = dictFetch d k := by
  intro pairs
  induction pairs with
  | nil => intro d k _; rfl
  | cons kv pairs ih =>
    intro d k hk
    rw [List.map_cons] at hk
    have h1 : k ≠ kv.1 := fun hx => hk (by simp [hx])
    have h2 : k ∉ pairs.map Prod.fst := fun hx => hk (by simp [hx])
    rw [List.foldl_cons, ih _ k h2]
    exact dictFetch_put_other d kv.1 kv.2 k h1

theorem dictFetch_foldPut_mem {K V : Type} [DecidableEq K] :
    ∀ (pairs d : PyDict K V) (k : K) (v : V),
      (k, v) ∈ pairs → (pairs.map Prod.fst).Nodup →
      dictFetch (pairs.foldl (fun d kv => dictPut d kv.1 kv.2) d) k = some v := by
  intro pairs
  induction pairs with
  | nil => intro d k v hmem _; cases hmem
  | cons kv pairs ih =>
    intro d k v hmem hnd
    obtain ⟨k0, v0⟩ := kv
    rw [List.map_cons, List.nodup_cons] at hnd
    rw [List.foldl_cons]
    rcases List.mem_cons.mp hmem with heq | hmem2
    · obtain ⟨rfl, rfl⟩ : k = k0 ∧ v = v0 := by simpa using heq
      rw [dictFetch_foldPut_keyAbsent pairs _ _ hnd.1]
      exact dictFetch_put_same d _ _
    · exact ih _ k v hmem2 hnd.2

theorem dictFetch_foldPutSelf {K V : Type} [DecidableEq K] (d : PyDict K V)
    (hnd : (d.map Prod.fst).Nodup) (k : K) :
    dictFetch (d.foldl (fun acc kv => dictPut acc kv.1 kv.2) d) k = dictFetch d k := by
  cases hF : dictFetch d k with
  | none =>
    have hk : k ∉ d.map Prod.fst := by
      intro hx
      rw [List.mem_map] at hx
      obtain ⟨e, he, hek⟩ := hx
      unfold dictFetch at hF
      cases hG : d.find? (fun e => decide (e.1 = k)) with
      | some r => rw [hG] at hF; cases hF
      | none =>
        rw [List.find?_eq_none] at hG
        have := hG e he
        simp [hek] at this
    rw [dictFetch_foldPut_keyAbsent d d k hk, hF]
  | some v =>
    have hmem : (k, v) ∈ d := by
      unfold dictFetch at hF
      cases hG : d.find? (fun e => decide (e.1 = k)) with
      | none => rw [hG] at hF; cases hF
      | some r =>
        rw [hG] at hF
        obtain ⟨r1, r2⟩ := r
        have h1 : r1 = k := by simpa using List.find?_some hG
        have h2 : r2 = v := by simpa using hF
        have hr := List.mem_of_find?_eq_some hG
        rw [h1, h2] at hr
        exact hr
    rw [dictFetch_foldPut_mem d d k v hmem hnd]

/-! ## C8: what `resume()` does to `status` -/

/-- C8: after `resume()`, the new identity's `resumed_from` equals the
previous identity's bytes (both backends); every status pair of the old
identity other than `resumed_from` is carried over to the new
identity's status (under the table's primary-key invariant, stated as a
`Nodup` hypothesis); and a freshly constructed log stores
`resumed_from = NULL`. -/
theorem C8_resume_status :
    (∀ (L : SQLiteLog) (newUuid : Nat),
        statusFetch (L.resume newUuid).db.status (Value.blob newUuid) "resumed_from"
          = some L.b_uuid)
    ∧ (∀ (L : SQLiteLog) (newUuid : Nat) (k : String) (v : Value),
        k ≠ "resumed_from" →
        ((SQLiteLog.statusPairs L.db.status L.b_uuid).map Prod.fst).Nodup →
        L.statusGet k = some v →
        statusFetch (L.resume newUuid).db.status (Value.blob newUuid) k = some v)
    ∧ (∀ (u : Nat) (db : SQLiteDB),
        (SQLiteLog.create u db).statusGet "resumed_from" = some Value.null)
    ∧ (∀ (M : TrainingLog) (newUuid : Nat),
        dictFetch (M.resume newUuid).status "resumed_from" = some (Value.blob M.uuid))
    ∧ (∀ (M : TrainingLog) (newUuid : Nat) (k : String) (v : Value),
        k ≠ "resumed_from" → (M.status.map Prod.fst).Nodup →
        dictFetch M.status k = some v →
        dictFetch (M.resume newUuid).status k = some v)
    ∧ (∀ u : Nat, dictFetch (TrainingLog.create u).status "resumed_from"
        = some Value.null) := by
  refine ⟨?_, ?_, ?_, ?_, ?_, ?_⟩
  · intro L newUuid
    rw [show (L.resume newUuid).db.status
        = statusPut ((SQLiteLog.statusPairs L.db.status L.b_uuid).foldl
            (fun st kv => statusPut st (Value.blob newUuid) kv.1 kv.2) L.db.status)
          (Value.blob newUuid) "resumed_from" L.b_uuid from rfl]
    exact statusFetch_put_same _ _ _ _
  · intro L newUuid k v hk hnd hget
    have hmem : (k, v) ∈ SQLiteLog.statusPairs L.db.status L.b_uuid :=
      statusPairs_of_fetch _ _ _ _ hget
    rw [show (L.resume newUuid).db.status
        = statusPut ((SQLiteLog.statusPairs L.db.status L.b_uuid).foldl
            (fun st kv => statusPut st (Value.blob newUuid) kv.1 kv.2) L.db.status)
          (Value.blob newUuid) "resumed_from" L.b_uuid from rfl]
    rw [statusFetch_put_other _ _ _ _ (Value.blob newUuid) k
      (fun hx => hk (congrArg Prod.snd hx))]
    exact statusFetch_foldPut_mem _ _ _ _ _ hmem hnd
  · intro u db
    show statusFetch (statusPut (statusPut (statusPut db.status (Value.blob u)
        "iterations_done" (Value.int 0)) (Value.blob u) "epochs_done" (Value.int 0))
        (Value.blob u) "resumed_from" Value.null) (Value.blob u) "resumed_from"
      = some Value.null
    exact statusFetch_put_same _ _ _ _
  · intro M newUuid
    show dictFetch (dictPut (M.status.foldl (fun d kv => dictPut d kv.1 kv.2) M.status)
        "resumed_from" (Value.blob M.uuid)) "resumed_from" = some (Value.blob M.uuid)
    exact dictFetch_put_same _ _ _
  · intro M newUuid k v hk hnd hget
    show dictFetch (dictPut (M.status.foldl (fun d kv => dictPut d kv.1 kv.2) M.status)
        "resumed_from" (Value.blob M.uuid)) k = some v
    rw [dictFetch_put_other _ _ _ _ hk]
    rw [dictFetch_foldPutSelf M.status hnd k]
    exact hget
  · intro u
    rfl

/-- Witness for C8: the scenario log's `iterations_done = 1` survives
resumption to identity 9. -/
theorem C8_resume_status_witness :
    ("iterations_done" ≠ "resumed_from")
    ∧ ((SQLiteLog.statusPairs scenarioA2.db.status scenarioA2.b_uuid).map Prod.fst).Nodup
    ∧ scenarioA2.statusGet "iterations_done" = some (Value.int 1)
    ∧ statusFetch (scenarioA2.resume 9).db.status (Value.blob 9) "iterations_done"
        = some (Value.int 1) :=
  ⟨by decide, by decide, by rfl, C8_resume_status.2.1 scenarioA2 9 "iterations_done"
    (Value.int 1) (by decide) (by decide) (by rfl)⟩

/-! ## C10: pickling the in-memory backend -/

theorem memReplayRows :
    ∀ (items : PyDict Nat (PyDict String Value)) (M : TrainingLog),
      (∀ t ∈ items.map Prod.fst, dictFetch M.rows t = none) →
      (items.map Prod.fst).Nodup →
      items.foldl (fun M tr => { M with rows := dictPut M.rows tr.1 tr.2 }) M
        = { M with rows := M.rows ++ items } := by
  intro items
  induction items with
  | nil => intro M _ _; cases M; simp
  | cons tr rest ih =>
    intro M habs hnd
    rw [List.map_cons, List.nodup_cons] at hnd
    rw [List.foldl_cons]
    have ht : dictFetch M.rows tr.1 = none := habs tr.1 (by simp)
    have hfind : M.rows.find? (fun e => decide (e.1 = tr.1)) = none := by
      cases hF : M.rows.find? (fun e => decide (e.1 = tr.1))
      · rfl
      · unfold dictFetch at ht
        rw [hF] at ht
        cases ht
    have hput : dictPut M.rows tr.1 tr.2 = M.rows ++ [tr] := by
      unfold dictPut
      rw [hfind]
      rfl
    rw [hput]
    have habs2 : ∀ t ∈ rest.map Prod.fst, dictFetch (M.rows ++ [tr]) t = none := by
      intro t htm
      have h1 : dictFetch M.rows t = none := habs t (by simp [htm])
      have hneq : tr.1 ≠ t := fun hx => hnd.1 (hx ▸ htm)
      have hf1 : M.rows.find? (fun e => decide (e.1 = t)) = none := by
        cases hF : M.rows.find? (fun e => decide (e.1 = t))
        · rfl
        · unfold dictFetch at h1
          rw [hF] at h1
          cases h1
      unfold dictFetch
      rw [List.find?_append, hf1]
      simp [List.find?, hneq]
    have hrec := ih { M with rows := M.rows ++ [tr] } habs2 hnd.2
    rw [hrec]
    simp

/-- C10: for the in-memory backend, `__reduce__` followed by the pickle
reconstruction (fresh constructor call, instance-dict update, item
replay through `__setitem__`) rebuilds the identity, the status mapping
and every row exactly, under the dict invariant that stored times are
distinct. -/
theorem C10_pickle_roundtrip :
    ∀ (M : TrainingLog) (freshUuid : Nat),
      (M.rows.map Prod.fst).Nodup →
      (M.toSnapshot).toLog freshUuid = M := by
  intro M freshU hnd
  show (M.rows.foldl (fun M tr => { M with rows := dictPut M.rows tr.1 tr.2 })
      { uuid := M.uuid, status := M.status, rows := [] } : TrainingLog) = M
  rw [memReplayRows M.rows { uuid := M.uuid, status := M.status, rows := [] }
    (fun t _ => rfl) hnd]
  simp

/-- Witness for C10 at a small concrete log. -/
theorem C10_pickle_roundtrip_witness :
    ((([(0, [("a", Value.int 1)]), (2, [])] : PyDict Nat (PyDict String Value)).map
        Prod.fst).Nodup)
    ∧ (TrainingLog.toSnapshot (TrainingLog.mk 3 [("x", Value.int 2)]
          [(0, [("a", Value.int 1)]), (2, [])])).toLog 99
        = TrainingLog.mk 3 [("x", Value.int 2)] [(0, [("a", Value.int 1)]), (2, [])] :=
  ⟨by decide, C10_pickle_roundtrip _ 99 (by decide)⟩

end Blocks
